import Mathlib

/-!
Verification of the ai-resume-screener retrieval core against its specification.

The development shallowly embeds the Python sources of the repository:
  * `src/rag/chunking.py`    — text normalization, section splitting, bounded chunking
  * `src/rag/vectorstore.py` — SQLite-backed vector store (modelled as a list of rows)
  * `src/rag/embeddings.py`  — hashing embedder (blake2b bucket hashing, L2 normalization)
  * `src/rag/rag.py`         — retrieval orchestration, guardrail, screening, fallbacks

Python floats are modelled as `ℚ` in the store/orchestrator layer (where only
field arithmetic and comparisons occur) and as `ℝ` in the embedding layer
(where the L2 norm needs square roots).  Python strings are modelled as Lean
`String`s, with character-level operations performed on `List Char` (Python
indexes strings by code points, as `List Char` does).
-/

namespace ResumeScreener

/-! ## Python string primitives -/

/-- Python `str.strip()` on a character list: drop whitespace from both ends. -/
def pyStripL (l : List Char) : List Char :=
  ((l.dropWhile Char.isWhitespace).reverse.dropWhile Char.isWhitespace).reverse

/-- Python `str.strip()`. -/
def pyStrip (s : String) : String := String.mk (pyStripL s.data)

/-- Python `s[:n]` (slice by code points). -/
def pyTake (s : String) (n : Nat) : String := String.mk (s.data.take n)

/-- Python `s[-n:]` for `n > 0` (last `n` code points; whole string when `n ≥ len`). -/
def takeLast (s : String) (n : Nat) : String := String.mk (s.data.drop (s.data.length - n))

/-- Python `str.lower()` (ASCII case folding, as used by the sources). -/
def lowerStr (s : String) : String := String.mk (s.data.map Char.toLower)

/-- Split a character list at every `'\n'`, keeping empty fields
(Python `text.split("\n")`). -/
def splitOnNl : List Char → List Char → List (List Char)
  | [], acc => [acc.reverse]
  | '\n' :: rest, acc => acc.reverse :: splitOnNl rest []
  | c :: rest, acc => splitOnNl rest (c :: acc)

/-- Split a character list at every non-overlapping `"\n\n"`, scanning left to
right (Python `text.split("\n\n")`). -/
def splitOnBlank : List Char → List Char → List (List Char)
  | [], acc => [acc.reverse]
  | '\n' :: '\n' :: rest, acc => acc.reverse :: splitOnBlank rest []
  | c :: rest, acc => splitOnBlank rest (c :: acc)

/-! ## `chunking.py` -/

/-- `chunking.normalize_text` step 1: `s.replace("\r\n","\n").replace("\r","\n")`. -/
def fixNewlines : List Char → List Char
  | [] => []
  | '\r' :: '\n' :: rest => '\n' :: fixNewlines rest
  | '\r' :: rest => '\n' :: fixNewlines rest
  | c :: rest => c :: fixNewlines rest

/-- Horizontal whitespace recognised by the `[ \t]+` regex. -/
def isHT (c : Char) : Bool := c == ' ' || c == '\t'

/-- `chunking.normalize_text` step 2: `re.sub(r"[ \t]+", " ", s)`.  The Boolean
argument records whether the previous character belonged to a horizontal
whitespace run (so the run contributes a single `' '`). -/
def collapseSpacesAux : Bool → List Char → List Char
  | _, [] => []
  | inRun, c :: rest =>
    if isHT c then
      if inRun then collapseSpacesAux true rest
      else ' ' :: collapseSpacesAux true rest
    else c :: collapseSpacesAux false rest

def collapseSpaces (l : List Char) : List Char := collapseSpacesAux false l

/-- `chunking.normalize_text` step 3: `re.sub(r"\n{3,}", "\n\n", s)` — runs of
three or more newlines collapse to exactly two; shorter runs are untouched.
The `Nat` argument counts the pending run of newlines. -/
def collapseBlankAux : Nat → List Char → List Char
  | k, [] => List.replicate (min k 2) '\n'
  | k, c :: rest =>
    if c = '\n' then collapseBlankAux (k + 1) rest
    else List.replicate (min k 2) '\n' ++ c :: collapseBlankAux 0 rest

def collapseBlank (l : List Char) : List Char := collapseBlankAux 0 l

/-- `chunking.normalize_text`. -/
def normalizeText (s : String) : String :=
  String.mk (pyStripL (collapseBlank (collapseSpaces (fixNewlines s.data))))

/-- The fixed header vocabulary of `_SECTION_RE` in `chunking.py`. -/
def sectionKeywords : List String :=
  ["summary", "experience", "work experience", "projects", "skills", "education",
   "certifications", "certificates", "publications", "achievements", "languages", "interests"]

/-- `_SECTION_RE.match(ln)` on an already-stripped line: a case-insensitive
whole-line match against the header vocabulary. -/
def isSectionHeader (ln : String) : Bool := sectionKeywords.contains (lowerStr ln)

/-- The `if current: sections.append((current_title, current))` flush in
`split_into_sections`. -/
def flushSection (title : String) (cur : List String) : List (String × List String) :=
  if cur.isEmpty then [] else [(title, cur)]

/-- The line loop of `chunking.split_into_sections`. -/
def sectionsLoop : List String → String → List String → List (String × List String)
  | [], title, cur => flushSection title cur
  | ln :: rest, title, cur =>
    if ln = "" then sectionsLoop rest title (cur ++ [""])
    else if isSectionHeader ln then flushSection title cur ++ sectionsLoop rest ln []
    else sectionsLoop rest title (cur ++ [ln])

/-- `chunking.split_into_sections`. -/
def splitIntoSections (text : String) : List (String × String) :=
  let lines := (splitOnNl text.data []).map (fun l => pyStrip (String.mk l))
  ((sectionsLoop lines "BODY" []).map
      (fun p => (p.1, pyStrip (String.intercalate "\n" p.2)))).filter (fun p => p.2 ≠ "")

structure ChunkMeta where
  doc_name : String
  sectionTitle : String
  seq : Nat
deriving DecidableEq, Repr

structure Chunk where
  chunk_id : String
  text : String
  meta : ChunkMeta
deriving DecidableEq, Repr

/-- Python `f"{seq:04d}"`. -/
def pad4 (n : Nat) : String :=
  if n < 10 then "000" ++ toString n
  else if n < 100 then "00" ++ toString n
  else if n < 1000 then "0" ++ toString n
  else toString n

/-- Chunk ids `f"{doc_name}:{seq:04d}"`. -/
def mkChunkId (doc_name : String) (seq : Nat) : String := doc_name ++ ":" ++ pad4 seq

/-- The hard-split `while` loop of `chunk_text` for an oversized paragraph:
the window at offset `i * step` is `p[i*step : i*step + maxc]`, with
`step = maxc - ov` when `ov < maxc` and `step = maxc` otherwise, and the loop
runs while `i * step < len p`, i.e. for `⌈len p / step⌉` iterations.  Python's
loop does not terminate when `max_chars = 0`; the `max _ 1` below forces
progress in that degenerate case and coincides with the source whenever
`maxc ≥ 1`. -/
def hardSplitPieces (maxc ov : Nat) (p : List Char) : List (List Char) :=
  let step := max (if ov < maxc then maxc - ov else maxc) 1
  (List.range ((p.length + step - 1) / step)).map (fun i => (p.drop (i * step)).take maxc)

/-- Chunk accumulator state (`chunks`, `seq`) threaded through `chunk_text`. -/
structure PackState where
  chunks : List Chunk
  seq : Nat
deriving DecidableEq, Repr

/-- `chunks.append(Chunk(chunk_id=f"{doc_name}:{seq:04d}", ...)); seq += 1`. -/
def emitChunk (doc_name title : String) (st : PackState) (t : String) : PackState :=
  let c : Chunk :=
    { chunk_id := mkChunkId doc_name st.seq, text := t,
      meta := { doc_name := doc_name, sectionTitle := title, seq := st.seq } }
  { chunks := st.chunks ++ [c], seq := st.seq + 1 }

/-- The paragraph-packing loop of `chunk_text` within one section (including the
trailing `if buf:` flush). -/
def packParas (doc_name title : String) (maxc ov : Nat) :
    List String → PackState → String → PackState
  | [], st, buf => if buf ≠ "" then emitChunk doc_name title st buf else st
  | p :: ps, st, buf =>
    let candidate := if buf ≠ "" then pyStrip (buf ++ "\n\n" ++ p) else p
    if candidate.length ≤ maxc then packParas doc_name title maxc ov ps st candidate
    else if buf ≠ "" then
      let st' := emitChunk doc_name title st buf
      let tl := if 0 < ov then takeLast buf ov else ""
      packParas doc_name title maxc ov ps st' (pyStrip (tl ++ "\n\n" ++ p))
    else
      let pieces := hardSplitPieces maxc ov p.data
      let st' := pieces.foldl (fun s piece => emitChunk doc_name title s (String.mk piece)) st
      packParas doc_name title maxc ov ps st' ""

/-- `[p.strip() for p in section_text.split("\n\n") if p.strip()]`. -/
def parasOf (sectionText : String) : List String :=
  ((splitOnBlank sectionText.data []).map (fun l => pyStrip (String.mk l))).filter
    (fun p => p ≠ "")

/-- `chunking.chunk_text` (defaults in the source: `max_chars=1200`,
`overlap_chars=150`). -/
def chunkText (text doc_name : String) (maxc ov : Nat) : List Chunk :=
  let t := normalizeText text
  let secs0 := splitIntoSections t
  let secs := if secs0.isEmpty then [("BODY", t)] else secs0
  (secs.foldl (fun st sec => packParas doc_name sec.1 maxc ov (parasOf sec.2) st "")
      { chunks := [], seq := 0 }).chunks

/-! ## `vectorstore.py`

The SQLite table `chunks (id PRIMARY KEY, doc_name, text, meta_json, embedding)`
is modelled as a list of rows in rowid (insertion) order.  Metadata dictionaries
are modelled as string-keyed association lists of strings (the only keys the
store consults, `doc_name` and `source`, hold strings in this repository), and
the float32 `embedding` blob as the list of its values in `ℚ`. -/

/-- A row of the `chunks` table. -/
structure StoredRow where
  id : String
  doc_name : String
  text : String
  meta : List (String × String)
  embedding : List ℚ
deriving DecidableEq, Repr

abbrev Store := List StoredRow

/-- Python `meta.get(k)`. -/
def metaGet (m : List (String × String)) (k : String) : Option String :=
  (m.find? (fun p => p.1 = k)).map (fun p => p.2)

/-- Python truthiness of an optional string value (`None` and `""` are falsy). -/
def truthy : Option String → Bool
  | some s => s ≠ ""
  | none => false

/-- `meta.get("doc_name") or meta.get("source") or "unknown"` in
`SQLiteVectorStore.upsert`. -/
def rowDocName (m : List (String × String)) : String :=
  if truthy (metaGet m "doc_name") then (metaGet m "doc_name").getD ""
  else if truthy (metaGet m "source") then (metaGet m "source").getD ""
  else "unknown"

/-- The row built for one record in `upsert`. -/
def mkRow (id : String) (emb : List ℚ) (doc : String) (meta : List (String × String)) :
    StoredRow :=
  { id := id, doc_name := rowDocName meta, text := doc, meta := meta, embedding := emb }

/-- `INSERT OR REPLACE` of a single row: any existing row with the same primary
key is deleted and the new row is inserted (receiving a fresh largest rowid,
hence appended in scan order). -/
def insertOrReplace (s : Store) (r : StoredRow) : Store :=
  List.filter (fun t => t.id ≠ r.id) s ++ [r]

/-- `SQLiteVectorStore.upsert`: zip the four argument lists into rows and write
them row by row. -/
def upsert (s : Store) (ids : List String) (embeddings : List (List ℚ))
    (documents : List String) (metadatas : List (List (String × String))) : Store :=
  let rows := (ids.zip (embeddings.zip (documents.zip metadatas))).map
    (fun q => mkRow q.1 q.2.1 q.2.2.1 q.2.2.2)
  rows.foldl insertOrReplace s

/-- `SQLiteVectorStore.reset`: `DELETE FROM chunks`. -/
def resetStore (_s : Store) : Store := []

/-- Stable insertion of `x` into a list already sorted by `key` in
non-increasing order: `x` goes in front of the first element with a strictly
smaller key (so equal keys keep their existing order). -/
def insertDescBy (key : α → ℚ) (x : α) : List α → List α
  | [] => [x]
  | y :: ys => if key y < key x then x :: y :: ys else y :: insertDescBy key x ys

/-- Stable sort in non-increasing `key` order (the behaviour of Python's stable
`list.sort(key=..., reverse=True)`). -/
def sortDescBy (key : α → ℚ) (l : List α) : List α :=
  l.foldl (fun acc x => insertDescBy key x acc) []

/-- The dot-product loop of `SQLiteVectorStore.query`:
`for i in range(min(len(q), len(emb))): score += q[i] * emb[i]`. -/
def rawScore (q e : List ℚ) : ℚ :=
  (List.range (min q.length e.length)).foldl (fun acc i => acc + q.getD i 0 * e.getD i 0) 0

/-- `max(0.0, min(1.0, score))`. -/
def clamp01 (x : ℚ) : ℚ := max 0 (min 1 x)

/-- A query result tuple `(id, document_text, metadata, score)`. -/
structure QueryHit where
  id : String
  text : String
  meta : List (String × String)
  score : ℚ
deriving DecidableEq, Repr

/-- The SQL candidate set of `query`: all rows, or the rows matching the
optional `WHERE doc_name = ?` filter. -/
def queryCandidates (s : Store) (whereDoc : Option String) : Store :=
  match whereDoc with
  | some d => List.filter (fun r : StoredRow => r.doc_name = d) s
  | none => s

/-- The scored tuple `(id, text, meta, max(0.0, min(1.0, score)))` built for one
candidate row. -/
def scoreRow (query_embedding : List ℚ) (r : StoredRow) : QueryHit :=
  { id := r.id, text := r.text, meta := r.meta,
    score := clamp01 (rawScore query_embedding r.embedding) }

/-- `SQLiteVectorStore.query`: optional `doc_name` pre-filter, clamped dot
product against every candidate, stable descending sort
(`scored.sort(key=..., reverse=True)`), first `top_k`. -/
def queryStore (s : Store) (query_embedding : List ℚ) (top_k : Nat)
    (whereDoc : Option String) : List QueryHit :=
  let scored := (queryCandidates s whereDoc).map (scoreRow query_embedding)
  (sortDescBy (fun h => h.score) scored).take top_k

/-- `SQLiteVectorStore.list_doc_names`:
`SELECT DISTINCT doc_name FROM chunks ORDER BY doc_name`. -/
def insertAscStr (x : String) : List String → List String
  | [] => [x]
  | y :: ys => if x < y then x :: y :: ys else y :: insertAscStr x ys

def sortAscStr (l : List String) : List String :=
  l.foldl (fun acc x => insertAscStr x acc) []

def listDocNames (s : Store) : List String :=
  sortAscStr ((List.map (fun r => r.doc_name) s).dedup)

/-! ## `embeddings.py`

`LocalHashingEmbedder._hash_to_idx` hashes a token with
`hashlib.blake2b(s.encode("utf-8"), digest_size=8)`, reads the 8-byte digest as
a little-endian integer and reduces it modulo the dimension.  BLAKE2b
(RFC 7693) is modelled below over `Nat` with explicit `% 2^64`; for an 8-byte
digest the little-endian integer of the digest is exactly the first state word
`h[0]`. -/

def M64 : Nat := 2 ^ 64

def add64 (a b : Nat) : Nat := (a + b) % M64

def rotr64 (x n : Nat) : Nat := (x >>> n) ||| ((x <<< (64 - n)) % M64)

def blakeIV : List Nat :=
  [0x6a09e667f3bcc908, 0xbb67ae8584caa73b, 0x3c6ef372fe94f82b, 0xa54ff53a5f1d36f1,
   0x510e527fade682d1, 0x9b05688c2b3e6c1f, 0x1f83d9abfb41bd6b, 0x5be0cd19137e2179]

def blakeSigma : List (List Nat) :=
  [[0, 1, 2, 3, 4, 5, 6, 7, 8, 9, 10, 11, 12, 13, 14, 15],
   [14, 10, 4, 8, 9, 15, 13, 6, 1, 12, 0, 2, 11, 7, 5, 3],
   [11, 8, 12, 0, 5, 2, 15, 13, 10, 14, 3, 6, 7, 1, 9, 4],
   [7, 9, 3, 1, 13, 12, 11, 14, 2, 6, 5, 10, 4, 0, 15, 8],
   [9, 0, 5, 7, 2, 4, 10, 15, 14, 1, 11, 12, 6, 8, 3, 13],
   [2, 12, 6, 10, 0, 11, 8, 3, 4, 13, 7, 5, 15, 14, 1, 9],
   [12, 5, 1, 15, 14, 13, 4, 10, 0, 7, 6, 3, 9, 2, 8, 11],
   [13, 11, 7, 14, 12, 1, 3, 9, 5, 0, 15, 4, 8, 6, 2, 10],
   [6, 15, 14, 9, 11, 3, 0, 8, 12, 2, 13, 7, 1, 4, 10, 5],
   [10, 2, 8, 4, 7, 6, 1, 5, 15, 11, 9, 14, 3, 12, 13, 0]]

/-- The BLAKE2b `G` mixing function on the 16-word working vector. -/
def gMix (v : List Nat) (a b c d : Nat) (x y : Nat) : List Nat :=
  let va := add64 (add64 (v.getD a 0) (v.getD b 0)) x
  let vd := rotr64 ((v.getD d 0) ^^^ va) 32
  let vc := add64 (v.getD c 0) vd
  let vb := rotr64 ((v.getD b 0) ^^^ vc) 24
  let va2 := add64 (add64 va vb) y
  let vd2 := rotr64 (vd ^^^ va2) 16
  let vc2 := add64 vc vd2
  let vb2 := rotr64 (vb ^^^ vc2) 63
  (((v.set a va2).set b vb2).set c vc2).set d vd2

/-- One BLAKE2b round with message words `m` and sigma row `s`. -/
def blakeRound (m : List Nat) (v : List Nat) (s : List Nat) : List Nat :=
  let v := gMix v 0 4 8 12 (m.getD (s.getD 0 0) 0) (m.getD (s.getD 1 0) 0)
  let v := gMix v 1 5 9 13 (m.getD (s.getD 2 0) 0) (m.getD (s.getD 3 0) 0)
  let v := gMix v 2 6 10 14 (m.getD (s.getD 4 0) 0) (m.getD (s.getD 5 0) 0)
  let v := gMix v 3 7 11 15 (m.getD (s.getD 6 0) 0) (m.getD (s.getD 7 0) 0)
  let v := gMix v 0 5 10 15 (m.getD (s.getD 8 0) 0) (m.getD (s.getD 9 0) 0)
  let v := gMix v 1 6 11 12 (m.getD (s.getD 10 0) 0) (m.getD (s.getD 11 0) 0)
  let v := gMix v 2 7 8 13 (m.getD (s.getD 12 0) 0) (m.getD (s.getD 13 0) 0)
  let v := gMix v 3 4 9 14 (m.getD (s.getD 14 0) 0) (m.getD (s.getD 15 0) 0)
  v

/-- Little-endian integer of a byte list. -/
def leWord (bs : List Nat) : Nat := bs.foldr (fun b acc => b + 256 * acc) 0

/-- The sixteen little-endian 64-bit words of a (zero-padded) 128-byte block. -/
def blockWords (block : List Nat) : List Nat :=
  (List.range 16).map (fun i => leWord ((block.drop (8 * i)).take 8))

/-- The BLAKE2b compression function `F(h, m, t, f)`. -/
def blakeCompress (h : List Nat) (m : List Nat) (t : Nat) (isFinal : Bool) : List Nat :=
  let v := h ++ blakeIV
  let v := v.set 12 ((v.getD 12 0) ^^^ (t % M64))
  let v := v.set 13 ((v.getD 13 0) ^^^ (t / M64 % M64))
  let v := if isFinal then v.set 14 ((v.getD 14 0) ^^^ (M64 - 1)) else v
  let v := (List.range 12).foldl (fun w i => blakeRound m w (blakeSigma.getD (i % 10) [])) v
  (List.range 8).map (fun i => (h.getD i 0) ^^^ (v.getD i 0) ^^^ (v.getD (i + 8) 0))

/-- Split a message into 128-byte blocks. -/
def chunks128 (msg : List Nat) : List (List Nat) :=
  (List.range ((msg.length + 127) / 128)).map (fun i => (msg.drop (128 * i)).take 128)

/-- `int.from_bytes(hashlib.blake2b(s.encode("utf-8"), digest_size=8).digest(), "little")`:
unkeyed BLAKE2b with parameter block `0x01010008` (fanout 1, depth 1, digest
length 8); the empty message is processed as a single zero block. -/
def blake2b8 (s : String) : Nat :=
  let msg := s.toUTF8.toList.map (fun b => b.toNat)
  let h0 := blakeIV.set 0 ((blakeIV.getD 0 0) ^^^ 0x01010008)
  let bs := chunks128 msg
  let n := bs.length
  let hfin :=
    if n = 0 then blakeCompress h0 (blockWords (List.replicate 128 0)) 0 true
    else
      let hmid := (List.range (n - 1)).foldl
        (fun h i => blakeCompress h (blockWords (bs.getD i [])) (128 * (i + 1)) false) h0
      let lastB := bs.getD (n - 1) []
      blakeCompress hmid (blockWords (lastB ++ List.replicate (128 - lastB.length) 0))
        msg.length true
  hfin.getD 0 0

/-- `LocalHashingEmbedder._hash_to_idx`. -/
def hashToIdx (dim : Nat) (s : String) : Nat := blake2b8 s % dim

/-- A character matched by the token regex `[a-z0-9\+\#\.\-]{2,}` (the text is
lowercased before matching). -/
def isTokChar (c : Char) : Bool :=
  decide (97 ≤ c.toNat ∧ c.toNat ≤ 122) || decide (48 ≤ c.toNat ∧ c.toNat ≤ 57) ||
  c == '+' || c == '#' || c == '.' || c == '-'

/-- Maximal runs of token characters, in order. -/
def tokenRuns : List Char → List (List Char)
  | [] => []
  | c :: cs =>
    let r := tokenRuns cs
    if isTokChar c then
      match cs with
      | [] => [[c]]
      | d :: _ =>
        if isTokChar d then
          match r with
          | run :: rest => (c :: run) :: rest
          | [] => [[c]]
        else [c] :: r
    else r

/-- `_TOKEN_RE.findall(text.lower())`: greedy matching of `[a-z0-9\+\#\.\-]{2,}`
yields exactly the maximal token-character runs of length at least 2. -/
def pyTokens (text : String) : List String :=
  ((tokenRuns (lowerStr text).data).filter (fun r => 2 ≤ r.length)).map (fun r => String.mk r)

/-- `v[idx] += w` on a Python list (out-of-range indices untouched; the hashing
always stays in range for a positive dimension).  The bucket weights `1.0` and
`0.5` are exact, so the accumulation is carried out in `ℚ`. -/
def addAt : List ℚ → Nat → ℚ → List ℚ
  | [], _, _ => []
  | x :: xs, 0, w => (x + w) :: xs
  | x :: xs, n + 1, w => x :: addAt xs n w

/-- The token loop of `LocalHashingEmbedder._embed_one`: each token adds `1.0`
to its bucket and each adjacent pair `f"{tok}_{next}"` adds `0.5` to its
bucket. -/
def accumTokens (dim : Nat) : List String → List ℚ → List ℚ
  | [], v => v
  | t :: ts, v =>
    let v1 := addAt v (hashToIdx dim t) 1
    let v2 := match ts with
      | [] => v1
      | t2 :: _ => addAt v1 (hashToIdx dim (t ++ "_" ++ t2)) (1 / 2)
    accumTokens dim ts v2

/-- The raw (unnormalized) bucket vector of `_embed_one`. -/
def rawVec (dim : Nat) (text : String) : List ℚ :=
  accumTokens dim (pyTokens text) (List.replicate dim 0)

/-- Sum of squares of a vector. -/
def sumSq (v : List ℝ) : ℝ := (v.map (fun x => x * x)).sum

/-- `LocalHashingEmbedder._embed_one`: bucket counts, then L2 normalization
with `math.sqrt(sum(x*x for x in v)) or 1.0` as the divisor. -/
noncomputable def embedOne (dim : Nat) (text : String) : List ℝ :=
  let v := (rawVec dim text).map (fun x : ℚ => (x : ℝ))
  let nrm := Real.sqrt (sumSq v)
  let d := if nrm = 0 then 1 else nrm
  v.map (fun x => x / d)

/-! ## `rag.py`

The orchestration layer of `RAGService`.  Scores are `ℚ` (stand-ins for the
Python floats; only comparisons and field arithmetic occur here).
`RAGService._retrieve` — the composition of the embedder and the store query,
returning the ranked `RetrievedChunk` list for a query and an optional
`doc_name` filter — is a field of the service model: the guardrail, screening
and fallback claims are statements about what the orchestrator does with the
retrieved chunks of a call, whatever they are, so the theorems below quantify
over this field. -/

/-- Python `f"{x:.2f}"` on a score (round-half-up at the third decimal; the
source formats binary floats, whose exact tie behaviour never matters for the
properties below). -/
def fmt2 (q : ℚ) : String :=
  let a : ℚ := |q|
  let n : Nat := (Int.floor (a * 100 + 1 / 2)).toNat
  (if q < 0 then "-" else "") ++ toString (n / 100) ++ "." ++
    (if n % 100 < 10 then "0" else "") ++ toString (n % 100)

/-- `schemas.RetrievedChunk`. -/
structure RetrievedChunk where
  doc_name : String
  chunk_id : String
  text : String
  score : ℚ
  page : Option Int
deriving DecidableEq, Repr

/-- `schemas.Citation`. -/
structure Citation where
  source : String
  chunk_id : String
  quote : String
deriving DecidableEq, Repr

/-- `schemas.ScreeningResult` (fields as constructed; pydantic's validation is
`validScreeningResult` below). -/
structure ScreeningResult where
  resume_name : String
  overall_fit : String
  confidence : ℚ
  summary : String
  strengths : List String
  gaps : List String
  citations : List Citation
deriving DecidableEq, Repr

/-- Pydantic validation of `ScreeningResult`: `overall_fit` is one of the
`OverallFit` literals and `confidence ∈ [0,1]`; constructing an invalid result
raises `ValidationError` inside the `try` block of `screen_resumes`. -/
def validScreeningResult (sr : ScreeningResult) : Bool :=
  (["Strong", "Moderate", "Weak", "Unclear"].contains sr.overall_fit) &&
    decide (0 ≤ sr.confidence) && decide (sr.confidence ≤ 1)

/-- An entry of the backend JSON's `citations` list: a dict with optional
`chunk_id`/`quote` keys (a non-dict entry behaves as one with neither key). -/
structure RawCitation where
  chunk_id : Option String
  quote : Option String
deriving DecidableEq, Repr

/-- The decoded JSON dictionary returned by `complete_json` (absent keys are
`none`). -/
structure LLMData where
  overall_fit : Option String
  confidence : Option ℚ
  summary : Option String
  strengths : Option (List String)
  gaps : Option (List String)
  citations : Option (List RawCitation)
deriving DecidableEq, Repr

/-- The generation backend (`llm.BaseLLM`): each call either returns a value or
raises; an `Except.error` carries the exception's class name, which is what
`f"LLM error: {e.__class__.__name__}"` interpolates. -/
structure LLMClient where
  complete_markdown : String → String → Except String String
  complete_json : String → String → Except String LLMData

/-- The `RAGService` state reached by the request paths under study. -/
structure RAGServiceModel where
  min_relevance_score : ℚ
  retrieve : String → Option String → List RetrievedChunk
  llm : Option LLMClient

/-- `RAGConfig.min_relevance_score` default. -/
def defaultMinRelevance : ℚ := 1 / 4

/-- `max(c.score for c in chunks)` (junk value `0` on the empty list, on which
the source never evaluates it). -/
def bestScore : List RetrievedChunk → ℚ
  | [] => 0
  | c :: cs => (List.map (fun x => x.score) cs).foldl max c.score

/-- `RAGService._guardrail_context`. -/
def guardrailContext (minScore : ℚ) (chunks : List RetrievedChunk) : Bool × String :=
  match chunks with
  | [] => (false, "No relevant context retrieved.")
  | c :: cs =>
    let best := (List.map (fun x => x.score) cs).foldl max c.score
    if best < minScore then
      (false, "Low retrieval confidence (best score=" ++ fmt2 best ++ " < " ++
        fmt2 minScore ++ ").")
    else (true, "")

/-- One entry `[{chunk_id} | score={score:.2f}]\n{text}` of a context block. -/
def chunkLine (c : RetrievedChunk) : String :=
  "[" ++ c.chunk_id ++ " | score=" ++ fmt2 c.score ++ "]\n" ++ c.text

/-- `"\n\n".join(...)` over the chunk lines. -/
def contextOf (chunks : List RetrievedChunk) : String :=
  String.intercalate "\n\n" (chunks.map chunkLine)

/-- One excerpt bullet of the no-LLM / LLM-failure paths of `answer_question`. -/
def bullet220 (c : RetrievedChunk) : String :=
  "- `" ++ c.chunk_id ++ "`: " ++ pyStrip (pyTake c.text 220) ++ "..."

/-- `"\n".join(...)` over the bullets for `chunks[:3]`. -/
def bullets220 (chunks : List RetrievedChunk) : String :=
  String.intercalate "\n" ((chunks.take 3).map bullet220)

/-- `prompts.ANSWER_SYSTEM`. -/
def ANSWER_SYSTEM : String :=
  "You are a source-grounded assistant answering questions about resumes.\n\nCRITICAL RULES (anti-hallucination guardrails):\n- Answer ONLY using the provided CONTEXT.\n- If you cannot answer from CONTEXT, respond with: \"I don\x27t have enough evidence in the indexed resumes to answer that.\"\n- Always include citations for factual claims, using the chunk_id(s).\n- Keep answers concise.\n"

/-- `prompts.SCREEN_SYSTEM`. -/
def SCREEN_SYSTEM : String :=
  "You are a resume screening assistant.\n\nCRITICAL RULES (anti-hallucination guardrails):\n- You MUST ONLY use information present in the provided CONTEXT chunks.\n- If the CONTEXT does not contain support for a claim, you must say it is not stated / not supported.\n- You MUST return VALID JSON ONLY (no markdown, no extra text).\n- You MUST include citations by referencing chunk_ids provided in CONTEXT.\n\nOutput JSON schema:\n\x7b\n  \"overall_fit\": \"Strong|Moderate|Weak|Unclear\",\n  \"confidence\": 0.0-1.0,\n  \"summary\": \"string\",\n  \"strengths\": [\"string\", ...],\n  \"gaps\": [\"string\", ...],\n  \"citations\": [\x7b\"chunk_id\": \"string\", \"quote\": \"string\"\x7d ...]\n\x7d\n"

/-- `prompts.COMPARE_SYSTEM`. -/
def COMPARE_SYSTEM : String :=
  "You compare multiple resumes against a job description.\n\nCRITICAL RULES:\n- Use ONLY the provided CONTEXT per resume.\n- Every non-trivial claim must be backed by at least one citation (chunk_id).\n- If evidence is missing for a candidate, say so explicitly.\nReturn MARKDOWN (not JSON).\n"

/-- `RAGService.answer_question`. -/
def answerQuestion (svc : RAGServiceModel) (question : String) : String :=
  let chunks := svc.retrieve question none
  let g := guardrailContext svc.min_relevance_score chunks
  if !g.1 then
    "I don\x27t have enough evidence in the indexed resumes to answer that.\n\nReason: " ++ g.2
  else
    match svc.llm with
    | none =>
      "LLM is not configured (set `OPENAI_API_KEY`). Here are the most relevant excerpts:\n\n"
        ++ bullets220 chunks
    | some llm =>
      match llm.complete_markdown ANSWER_SYSTEM
          ("QUESTION:\n" ++ question ++ "\n\nCONTEXT:\n" ++ contextOf chunks) with
      | .ok answer => pyStrip answer
      | .error _ =>
        "LLM is currently unavailable (for example, due to rate limits or exhausted quota).\n\nHere are the most relevant excerpts from the resumes instead:\n\n"
          ++ bullets220 chunks

/-- The usable entries of the backend's `citations` list in
`_parse_screening_json`: dicts whose `chunk_id` and `quote` are both truthy. -/
def usableCitations (doc_name : String) (data : LLMData) : List Citation :=
  (data.citations.getD []).filterMap (fun c =>
    match c.chunk_id, c.quote with
    | some cid, some q =>
      if cid ≠ "" ∧ q ≠ "" then some { source := doc_name, chunk_id := cid, quote := q }
      else none
    | _, _ => none)

/-- `Citation(source=doc_name, chunk_id=t.chunk_id, quote=t.text[:240].strip())`. -/
def chunkCitation (doc_name : String) (t : RetrievedChunk) : Citation :=
  { source := doc_name, chunk_id := t.chunk_id, quote := pyStrip (pyTake t.text 240) }

/-- `RAGService._parse_screening_json`. -/
def parseScreening (doc_name : String) (data : LLMData) (chunks : List RetrievedChunk) :
    ScreeningResult :=
  let cits0 := usableCitations doc_name data
  let cits := if cits0.isEmpty then (chunks.take 3).map (chunkCitation doc_name) else cits0
  { resume_name := doc_name,
    overall_fit := data.overall_fit.getD "Unclear",
    confidence := data.confidence.getD (2 / 5),
    summary := data.summary.getD "",
    strengths := (data.strengths.getD []).take 8,
    gaps := (data.gaps.getD []).take 8,
    citations := cits.take 6 }

/-- `RAGService._screen_fallback`. -/
def screenFallback (doc_name job_desc : String) (chunks : List RetrievedChunk)
    (reason : String) : ScreeningResult :=
  let top := chunks.take 5
  let conf : ℚ := if top.isEmpty then 0 else (top.map (fun c => c.score)).sum / (top.length : ℚ)
  let overall := if conf < 7 / 20 then "Unclear" else if conf < 11 / 20 then "Moderate"
    else "Strong"
  { resume_name := doc_name, overall_fit := overall,
    confidence := max 0 (min 1 conf),
    summary := "LLM is not configured or retrieval confidence is low. Showing best-effort, evidence-first excerpts.\nReason: "
      ++ reason,
    strengths := ["See cited excerpts for evidence; configure LLM for richer synthesis."],
    gaps := ["Insufficient evidence to fully assess without stronger retrieval / LLM synthesis."],
    citations := (top.take 3).map (chunkCitation doc_name) }

/-- The `user` message of the screening backend call. -/
def screenUser (job_desc doc_name : String) (chunks : List RetrievedChunk) : String :=
  "JOB DESCRIPTION:\n" ++ job_desc ++ "\n\nCONTEXT (single resume: " ++ doc_name ++ "):\n"
    ++ contextOf chunks

/-- One iteration of the `screen_resumes` loop for a single document. -/
def screenOne (svc : RAGServiceModel) (job_desc doc_name : String) : ScreeningResult :=
  let chunks := svc.retrieve job_desc (some doc_name)
  let g := guardrailContext svc.min_relevance_score chunks
  match svc.llm with
  | none => screenFallback doc_name job_desc chunks g.2
  | some llm =>
    if !g.1 then screenFallback doc_name job_desc chunks g.2
    else
      match llm.complete_json SCREEN_SYSTEM (screenUser job_desc doc_name chunks) with
      | .error e => screenFallback doc_name job_desc chunks ("LLM error: " ++ e)
      | .ok data =>
        let sr := parseScreening doc_name data chunks
        if validScreeningResult sr then sr
        else screenFallback doc_name job_desc chunks "LLM error: ValidationError"

/-- `RAGService.screen_resumes`: the accumulating loop over the requested
document names. -/
def screenResumes (svc : RAGServiceModel) (job_desc : String) (docs : List String) :
    List ScreeningResult :=
  docs.foldl (fun results doc_name => results ++ [screenOne svc job_desc doc_name]) []

/-- One per-resume block of `compare_resumes`. -/
def compareBlock (svc : RAGServiceModel) (job_desc doc_name : String) : String :=
  let chunks := svc.retrieve job_desc (some doc_name)
  let g := guardrailContext svc.min_relevance_score chunks
  if !g.1 then "## " ++ doc_name ++ "\nNo strong evidence retrieved. Reason: " ++ g.2 ++ "\n"
  else "## " ++ doc_name ++ "\n" ++ contextOf chunks ++ "\n"

/-- `RAGService.compare_resumes`. -/
def compareResumes (svc : RAGServiceModel) (job_desc : String) (docs : List String) : String :=
  let blocks := docs.map (compareBlock svc job_desc)
  let combined := String.intercalate "\n\n" blocks
  match svc.llm with
  | none =>
    "LLM is not configured (set `OPENAI_API_KEY`).\n\nTop evidence per resume:\n\n"
      ++ String.intercalate "\n\n" (blocks.take 6)
  | some llm =>
    let user := "JOB DESCRIPTION:\n" ++ job_desc ++ "\n\nCONTEXT (grouped by resume):\n"
      ++ combined
      ++ "\n\nReturn a markdown report with:\n- a comparison table\n- a ranked recommendation\n- bullet evidence per candidate with chunk_id citations.\n"
    match llm.complete_markdown COMPARE_SYSTEM user with
    | .ok s => s
    | .error _ =>
      "LLM is currently unavailable (for example, due to rate limits or exhausted quota).\n\nHere is the raw evidence per resume instead:\n\n"
        ++ String.intercalate "\n\n" (blocks.take 6)


/-! ## Theorems -/

/-- C2.  The claim asserts every chunk text has length at most `max_chars`.
The code violates this: when a paragraph overflows a non-empty buffer, the
next buffer is seeded with the overlap tail plus the whole new paragraph and
is never re-checked against `max_chars` before being emitted.  With
`max_chars = 10`, `overlap_chars = 2` and the two-paragraph document below,
the second emitted chunk has length 19 > 10. -/
theorem chunk_text_overflow_at_input :
    ((chunkText "aaaa\n\nbbbbbbbbbbbbbbb" "d" 10 2).map (fun c => c.text.length)) = [4, 19] ∧
    ((chunkText "aaaa\n\nbbbbbbbbbbbbbbb" "d" 10 2).any (fun c => decide (10 < c.text.length)))
      = true := by
  constructor
  · decide
  · decide

/-- C3.  The confidence gate fails exactly on an empty retrieval (with the
no-context reason) or a best score strictly below the threshold (with the
reason reporting best score and threshold); a best score equal to the
threshold passes. -/
theorem guardrail_gate_spec (m : ℚ) (chunks : List RetrievedChunk) :
    ((guardrailContext m chunks).1 = false ↔ chunks = [] ∨ bestScore chunks < m) ∧
    (chunks = [] → (guardrailContext m chunks).2 = "No relevant context retrieved.") ∧
    (chunks ≠ [] → bestScore chunks < m →
      (guardrailContext m chunks).2 =
        "Low retrieval confidence (best score=" ++ fmt2 (bestScore chunks) ++ " < " ++
          fmt2 m ++ ").") ∧
    (guardrailContext defaultMinRelevance
      [{ doc_name := "d", chunk_id := "c", text := "t", score := 1/4, page := none }]).1
        = true ∧
    (guardrailContext defaultMinRelevance
      [{ doc_name := "d", chunk_id := "c", text := "t", score := 24999/100000, page := none }]).1
        = false := by
  refine ⟨?_, ?_, ?_, by norm_num [guardrailContext, defaultMinRelevance],
    by norm_num [guardrailContext, defaultMinRelevance]⟩
  · cases chunks with
    | nil => simp [guardrailContext]
    | cons c cs =>
      simp only [guardrailContext, bestScore]
      by_cases h : (List.map (fun x => x.score) cs).foldl max c.score < m
      · simp [h]
      · simp [h]
  · intro h
    subst h
    rfl
  · intro hne h
    cases chunks with
    | nil => exact absurd rfl hne
    | cons c cs =>
      simp only [bestScore] at h
      simp [guardrailContext, bestScore, h]

/-- Witness for C3 at a concrete failing score. -/
theorem guardrail_gate_spec_witness :
    (guardrailContext (1/4)
      [{ doc_name := "d", chunk_id := "c", text := "t", score := 24999/100000, page := none }]).2
      = "Low retrieval confidence (best score=" ++
          fmt2 (bestScore
            [{ doc_name := "d", chunk_id := "c", text := "t", score := 24999/100000,
               page := none }]) ++ " < " ++ fmt2 (1/4) ++ ")." :=
  (guardrail_gate_spec (1/4) _).2.2.1 (by simp) (by norm_num [bestScore])

/-- Membership is invariant under stable descending insertion. -/
theorem mem_insertDescBy (key : α → ℚ) (x : α) (l : List α) (z : α) :
    z ∈ insertDescBy key x l ↔ z = x ∨ z ∈ l := by
  induction l with
  | nil => simp [insertDescBy]
  | cons y ys ih =>
    by_cases h : key y < key x
    · simp only [insertDescBy, if_pos h, List.mem_cons]
    · simp only [insertDescBy, if_neg h, List.mem_cons, ih]
      tauto

/-- Membership is invariant under the stable descending sort. -/
theorem mem_sortDescBy (key : α → ℚ) (l : List α) (z : α) :
    z ∈ sortDescBy key l ↔ z ∈ l := by
  suffices h : ∀ acc : List α,
      z ∈ List.foldl (fun acc x => insertDescBy key x acc) acc l ↔ z ∈ acc ∨ z ∈ l by
    simpa [sortDescBy] using h []
  induction l with
  | nil => intro acc; simp
  | cons y ys ih =>
    intro acc
    rw [List.foldl_cons, ih, mem_insertDescBy]
    simp only [List.mem_cons]
    tauto

/-- Stable descending insertion preserves the non-increasing ordering. -/
theorem pairwise_insertDescBy (key : α → ℚ) (x : α) (l : List α)
    (h : l.Pairwise (fun a b => key b ≤ key a)) :
    (insertDescBy key x l).Pairwise (fun a b => key b ≤ key a) := by
  induction l with
  | nil => simp [insertDescBy]
  | cons y ys ih =>
    rw [List.pairwise_cons] at h
    by_cases hxy : key y < key x
    · simp only [insertDescBy, if_pos hxy]
      refine List.Pairwise.cons ?_ (List.Pairwise.cons h.1 h.2)
      intro z hz
      rcases List.mem_cons.mp hz with rfl | hz'
      · exact le_of_lt hxy
      · exact le_trans (h.1 z hz') (le_of_lt hxy)
    · simp only [insertDescBy, if_neg hxy]
      refine List.Pairwise.cons ?_ (ih h.2)
      intro z hz
      rcases (mem_insertDescBy key x ys z).mp hz with rfl | hz'
      · exact not_lt.mp hxy
      · exact h.1 z hz'

/-- The stable descending sort is sorted non-increasingly. -/
theorem pairwise_sortDescBy (key : α → ℚ) (l : List α) :
    (sortDescBy key l).Pairwise (fun a b => key b ≤ key a) := by
  suffices h : ∀ acc : List α, acc.Pairwise (fun a b => key b ≤ key a) →
      (List.foldl (fun acc x => insertDescBy key x acc) acc l).Pairwise
        (fun a b => key b ≤ key a) by
    exact h [] (by simp)
  induction l with
  | nil => intro acc hacc; simpa using hacc
  | cons y ys ih => intro acc hacc; exact ih _ (pairwise_insertDescBy key y acc hacc)

/-- C4.  For every store state, query vector, `top_k` and optional filter, the
query returns at most `top_k` hits, every returned score is clamped into
`[0, 1]`, and the hits are ordered non-increasingly by score.  (The model is a
pure function of the store and the query, so the ordering — including the
stable tie-break inherited from Python's stable `sort` — is deterministic.) -/
theorem query_ranked_clamped_bounded (s : Store) (q : List ℚ) (k : Nat) (w : Option String) :
    (queryStore s q k w).length ≤ k ∧
    (∀ h ∈ queryStore s q k w, 0 ≤ h.score ∧ h.score ≤ 1) ∧
    List.Chain' (fun a b => b.score ≤ a.score) (queryStore s q k w) := by
  refine ⟨List.length_take_le _ _, ?_, ?_⟩
  · intro h hh
    have h2 := (mem_sortDescBy _ _ _).mp (List.mem_of_mem_take hh)
    obtain ⟨r, _, rfl⟩ := List.mem_map.mp h2
    refine ⟨le_max_left 0 _, ?_⟩
    exact max_le (by norm_num) (min_le_left 1 _)
  · exact (List.Pairwise.sublist (List.take_sublist _ _)
      (pairwise_sortDescBy (fun h : QueryHit => h.score) _)).chain'

/-- Folding `(· + f i)` over a list equals the starting value plus the sum of
the mapped list. -/
theorem foldl_add_eq_sum (f : Nat → ℚ) (l : List Nat) (c : ℚ) :
    l.foldl (fun acc i => acc + f i) c = c + (l.map f).sum := by
  induction l generalizing c with
  | nil => simp
  | cons x xs ih => simp [List.foldl_cons, ih, add_assoc]

/-- The `query` score loop as a sum over the common index range. -/
theorem rawScore_eq_sum_range (q e : List ℚ) :
    rawScore q e = ((List.range (min q.length e.length)).map
      (fun i => q.getD i 0 * e.getD i 0)).sum := by
  unfold rawScore
  rw [foldl_add_eq_sum]
  simp

/-- The `query` score loop is the dot product of the zipped vectors (zipping
truncates to the shorter operand). -/
theorem rawScore_eq_zipWith (q e : List ℚ) :
    rawScore q e = (List.zipWith (fun a b => a * b) q e).sum := by
  induction q generalizing e with
  | nil => simp [rawScore_eq_sum_range]
  | cons a q' ih =>
    cases e with
    | nil => simp [rawScore_eq_sum_range]
    | cons b e' =>
      rw [rawScore_eq_sum_range]
      have hmin : min (a :: q').length (b :: e').length = min q'.length e'.length + 1 := by
        simp [List.length_cons, Nat.succ_min_succ]
      rw [hmin, List.range_succ_eq_map, List.map_cons, List.sum_cons, List.map_map]
      have hmap : (List.map ((fun i => (a :: q').getD i 0 * (b :: e').getD i 0) ∘ Nat.succ)
          (List.range (min q'.length e'.length)))
          = List.map (fun i => q'.getD i 0 * e'.getD i 0)
            (List.range (min q'.length e'.length)) := by
        apply List.map_congr_left
        intro i _
        simp
      rw [hmap, ← rawScore_eq_sum_range, ih]
      simp

/-- C5.  A dimension mismatch between the query vector and a stored vector is
not an error: the score is the dot product over the common length
`min (len q) (len emb)` only, and the query still returns the (clamped) scored
hit for such a row. -/
theorem query_truncates_mismatched_dims (q : List ℚ) (r : StoredRow) (k : Nat) :
    rawScore q r.embedding =
      (List.zipWith (fun a b => a * b)
        (q.take (min q.length r.embedding.length))
        (r.embedding.take (min q.length r.embedding.length))).sum ∧
    queryStore [r] q (k + 1) none = [scoreRow q r] := by
  constructor
  · rw [rawScore_eq_zipWith]
    have h1 : (List.zipWith (fun a b : ℚ => a * b) q r.embedding).take
        (min q.length r.embedding.length) = List.zipWith (fun a b => a * b) q r.embedding := by
      apply List.take_of_length_le
      simp [List.length_zipWith]
    rw [← List.take_zipWith, h1]
  · simp [queryStore, queryCandidates, sortDescBy, insertDescBy]

/-- A one-record `upsert` call deletes any row with the same primary key and
appends the fresh row. -/
theorem upsert_singleton (s : Store) (id doc : String) (e : List ℚ)
    (m : List (String × String)) :
    upsert s [id] [e] [doc] [m]
      = List.filter (fun t : StoredRow => t.id ≠ id) s ++ [mkRow id e doc m] := by
  simp [upsert, insertOrReplace, mkRow]

/-- Filtering out an id twice is the same as filtering it out once. -/
theorem filter_ne_idem (id : String) (s : Store) :
    List.filter (fun t : StoredRow => t.id ≠ id)
        (List.filter (fun t : StoredRow => t.id ≠ id) s)
      = List.filter (fun t : StoredRow => t.id ≠ id) s := by
  induction s with
  | nil => rfl
  | cons r rs ih => by_cases h : r.id = id <;> simp [List.filter_cons, h, ih]

/-- No row survives both the `= id` and the `≠ id` filter. -/
theorem filter_eq_of_filter_ne (id : String) (s : Store) :
    List.filter (fun t : StoredRow => t.id = id)
        (List.filter (fun t : StoredRow => t.id ≠ id) s) = [] := by
  induction s with
  | nil => rfl
  | cons r rs ih => by_cases h : r.id = id <;> simp [List.filter_cons, h, ih]

/-- C6.  Writing two records under the same id leaves exactly one row under
that id — the second write's text, metadata and vector — and leaves every row
under any other id untouched. -/
theorem upsert_replace_by_id (s : Store) (id d1 d2 : String) (e1 e2 : List ℚ)
    (m1 m2 : List (String × String)) :
    List.filter (fun t : StoredRow => t.id = id)
        (upsert (upsert s [id] [e1] [d1] [m1]) [id] [e2] [d2] [m2])
      = [mkRow id e2 d2 m2] ∧
    List.filter (fun t : StoredRow => t.id ≠ id)
        (upsert (upsert s [id] [e1] [d1] [m1]) [id] [e2] [d2] [m2])
      = List.filter (fun t : StoredRow => t.id ≠ id) s := by
  rw [upsert_singleton, upsert_singleton]
  have hrow1 : List.filter (fun t : StoredRow => t.id ≠ id) [mkRow id e1 d1 m1] = [] := by
    simp [mkRow]
  have hs2 : List.filter (fun t : StoredRow => t.id ≠ id)
      (List.filter (fun t : StoredRow => t.id ≠ id) s ++ [mkRow id e1 d1 m1])
      = List.filter (fun t : StoredRow => t.id ≠ id) s := by
    rw [List.filter_append, hrow1, List.append_nil, filter_ne_idem]
  rw [hs2]
  constructor
  · rw [List.filter_append, filter_eq_of_filter_ne]
    simp [mkRow]
  · rw [List.filter_append, filter_ne_idem]
    simp [mkRow]

/-- Membership is invariant under ascending string insertion. -/
theorem mem_insertAscStr (x : String) (l : List String) (z : String) :
    z ∈ insertAscStr x l ↔ z = x ∨ z ∈ l := by
  induction l with
  | nil => simp [insertAscStr]
  | cons y ys ih =>
    by_cases h : x < y
    · simp only [insertAscStr, if_pos h, List.mem_cons]
    · simp only [insertAscStr, if_neg h, List.mem_cons, ih]
      tauto

/-- Membership is invariant under the ascending string sort. -/
theorem mem_sortAscStr (l : List String) (z : String) :
    z ∈ sortAscStr l ↔ z ∈ l := by
  suffices h : ∀ acc : List String,
      z ∈ List.foldl (fun acc x => insertAscStr x acc) acc l ↔ z ∈ acc ∨ z ∈ l by
    simpa [sortAscStr] using h []
  induction l with
  | nil => intro acc; simp
  | cons y ys ih =>
    intro acc
    rw [List.foldl_cons, ih, mem_insertAscStr]
    simp only [List.mem_cons]
    tauto

/-- C10 counterexample.  The claim says a record whose metadata lacks
`doc_name` is stored under the metadata's `source` value whenever the `source`
key is present.  With `source` present but empty, Python's `or`-chain treats it
as falsy, and the record is stored under `"unknown"`, not under `""`. -/
theorem upsert_source_key_counterexample :
    metaGet [("source", "")] "doc_name" = none ∧
    metaGet [("source", "")] "source" = some "" ∧
    ((upsert [] ["c1"] [[]] ["t"] [[("source", "")]]).map (fun r => r.doc_name))
      = ["unknown"] ∧
    ("unknown" : String) ≠ "" := by
  refine ⟨rfl, rfl, ?_, by decide⟩
  decide

/-- C10 amended.  `upsert` stores a record whose metadata lacks the `doc_name`
key without failing: its `doc_name` column is the metadata's `source` value
when that is present and non-empty, and `"unknown"` otherwise, and in the
latter case the record appears under `"unknown"` both in `list_doc_names` and
in the candidate set of a `doc_name`-filtered query. -/
theorem upsert_missing_doc_name_defaults (s : Store) (id doc : String) (e : List ℚ)
    (m : List (String × String)) (h : metaGet m "doc_name" = none) :
    rowDocName m =
      (if truthy (metaGet m "source") then (metaGet m "source").getD "" else "unknown") ∧
    (truthy (metaGet m "source") = false →
      rowDocName m = "unknown" ∧
      "unknown" ∈ listDocNames (upsert s [id] [e] [doc] [m]) ∧
      mkRow id e doc m ∈
        queryCandidates (upsert s [id] [e] [doc] [m]) (some "unknown")) := by
  have hdn : rowDocName m =
      (if truthy (metaGet m "source") then (metaGet m "source").getD "" else "unknown") := by
    simp [rowDocName, h, truthy]
  refine ⟨hdn, ?_⟩
  intro hsrc
  have hunk : rowDocName m = "unknown" := by rw [hdn, hsrc]; simp
  have hrowmem : mkRow id e doc m ∈ upsert s [id] [e] [doc] [m] := by
    rw [upsert_singleton]
    exact List.mem_append_right _ (List.mem_singleton.mpr rfl)
  refine ⟨hunk, ?_, ?_⟩
  · rw [listDocNames, mem_sortAscStr, List.mem_dedup]
    exact List.mem_map.mpr ⟨mkRow id e doc m, hrowmem, by simp [mkRow, hunk]⟩
  · rw [queryCandidates]
    rw [List.mem_filter]
    exact ⟨hrowmem, by simp [mkRow, hunk]⟩

/-- Witness for C10 at a concrete record with no metadata at all. -/
theorem upsert_missing_doc_name_defaults_witness :
    "unknown" ∈ listDocNames (upsert [] ["c1"] [[]] ["t"] [[]]) :=
  ((upsert_missing_doc_name_defaults [] "c1" "t" [] [] rfl).2 rfl).2.1

/-- With no backend configured, `screen_resumes` takes the fallback path with
the guardrail's reason. -/
theorem screenOne_no_llm (svc : RAGServiceModel) (job doc : String)
    (h : svc.llm = none) :
    screenOne svc job doc
      = screenFallback doc job (svc.retrieve job (some doc))
          (guardrailContext svc.min_relevance_score (svc.retrieve job (some doc))).2 := by
  unfold screenOne
  rw [h]

/-- With a failing guardrail, `screen_resumes` takes the fallback path with the
guardrail's reason. -/
theorem screenOne_gate_failed (svc : RAGServiceModel) (L : LLMClient) (job doc : String)
    (h : svc.llm = some L)
    (hg : (guardrailContext svc.min_relevance_score (svc.retrieve job (some doc))).1 = false) :
    screenOne svc job doc
      = screenFallback doc job (svc.retrieve job (some doc))
          (guardrailContext svc.min_relevance_score (svc.retrieve job (some doc))).2 := by
  unfold screenOne
  rw [h]
  simp [hg]

/-- With a raising backend call, `screen_resumes` takes the fallback path with
the `"LLM error: ..."` reason. -/
theorem screenOne_backend_error (svc : RAGServiceModel) (L : LLMClient) (job doc e : String)
    (h : svc.llm = some L)
    (hg : (guardrailContext svc.min_relevance_score (svc.retrieve job (some doc))).1 = true)
    (hc : L.complete_json SCREEN_SYSTEM
        (screenUser job doc (svc.retrieve job (some doc))) = Except.error e) :
    screenOne svc job doc
      = screenFallback doc job (svc.retrieve job (some doc)) ("LLM error: " ++ e) := by
  unfold screenOne
  rw [h]
  simp [hg, hc]

/-- With a successful backend call, `screen_resumes` returns the parsed result
when it validates, and the `ValidationError` fallback otherwise. -/
theorem screenOne_backend_ok (svc : RAGServiceModel) (L : LLMClient) (job doc : String)
    (data : LLMData) (h : svc.llm = some L)
    (hg : (guardrailContext svc.min_relevance_score (svc.retrieve job (some doc))).1 = true)
    (hc : L.complete_json SCREEN_SYSTEM
        (screenUser job doc (svc.retrieve job (some doc))) = Except.ok data) :
    screenOne svc job doc
      = (if validScreeningResult (parseScreening doc data (svc.retrieve job (some doc)))
          then parseScreening doc data (svc.retrieve job (some doc))
          else screenFallback doc job (svc.retrieve job (some doc))
            "LLM error: ValidationError") := by
  unfold screenOne
  rw [h]
  simp [hg, hc]

/-- Every citation built by `chunkCitation` over a prefix of the retrieved
chunks carries a retrieved `chunk_id`. -/
theorem citation_ids_of_take_map (doc : String) (chunks : List RetrievedChunk) (n k : Nat)
    (c : Citation) (hc : c ∈ ((chunks.take n).map (chunkCitation doc)).take k) :
    c.chunk_id ∈ chunks.map (fun t => t.chunk_id) := by
  obtain ⟨t, ht, rfl⟩ := List.mem_map.mp (List.mem_of_mem_take hc)
  exact List.mem_map.mpr ⟨t, List.mem_of_mem_take ht, rfl⟩

/-- Fallback citations always reference retrieved `chunk_id`s. -/
theorem screenFallback_citation_ids (doc job reason : String)
    (chunks : List RetrievedChunk) (c : Citation)
    (hc : c ∈ (screenFallback doc job chunks reason).citations) :
    c.chunk_id ∈ chunks.map (fun t => t.chunk_id) := by
  simp only [screenFallback] at hc
  obtain ⟨t, ht, rfl⟩ := List.mem_map.mp hc
  exact List.mem_map.mpr ⟨t, List.mem_of_mem_take (List.mem_of_mem_take ht), rfl⟩

/-- When the backend supplied no usable citations, the parsed result's patched
citations reference retrieved `chunk_id`s. -/
theorem parse_citation_ids_of_no_usable (doc : String) (data : LLMData)
    (chunks : List RetrievedChunk) (h0 : usableCitations doc data = []) (c : Citation)
    (hc : c ∈ (parseScreening doc data chunks).citations) :
    c.chunk_id ∈ chunks.map (fun t => t.chunk_id) := by
  simp only [parseScreening, h0, List.isEmpty_nil, if_true] at hc
  exact citation_ids_of_take_map doc chunks 3 6 c hc

/-- C1 amended.  Whenever the backend is absent, or the guardrail fails, or the
backend call raises, or the backend's output fails validation, or the
backend's output contains no usable citations — each case by itself,
regardless of what citations the backend response may carry — every citation
of the screening result references a `chunk_id` of that call's retrieved
chunks (in particular the top-3 patching path only uses retrieved chunks).
Usable backend-supplied citations on the remaining path, however, are passed
through without being cross-checked — see the counterexample. -/
theorem screen_citations_from_retrieved (svc : RAGServiceModel) (job doc : String)
    (h : svc.llm = none ∨
      (guardrailContext svc.min_relevance_score (svc.retrieve job (some doc))).1 = false ∨
      (∃ (L : LLMClient) (e : String), svc.llm = some L ∧
        L.complete_json SCREEN_SYSTEM (screenUser job doc (svc.retrieve job (some doc)))
          = Except.error e) ∨
      (∃ (L : LLMClient) (data : LLMData), svc.llm = some L ∧
        L.complete_json SCREEN_SYSTEM (screenUser job doc (svc.retrieve job (some doc)))
          = Except.ok data ∧
        (validScreeningResult (parseScreening doc data (svc.retrieve job (some doc)))
            = false ∨
          usableCitations doc data = []))) :
    ∀ c ∈ (screenOne svc job doc).citations,
      c.chunk_id ∈ (svc.retrieve job (some doc)).map (fun t => t.chunk_id) := by
  intro c hc
  rcases h with hnone | hgate | ⟨L, e, hL, herr⟩ | ⟨L, data, hL, hok, hcase⟩
  · rw [screenOne_no_llm svc job doc hnone] at hc
    exact screenFallback_citation_ids _ _ _ _ c hc
  · cases hllm : svc.llm with
    | none =>
      rw [screenOne_no_llm svc job doc hllm] at hc
      exact screenFallback_citation_ids _ _ _ _ c hc
    | some L =>
      rw [screenOne_gate_failed svc L job doc hllm hgate] at hc
      exact screenFallback_citation_ids _ _ _ _ c hc
  · cases hg : (guardrailContext svc.min_relevance_score (svc.retrieve job (some doc))).1 with
    | false =>
      rw [screenOne_gate_failed svc L job doc hL hg] at hc
      exact screenFallback_citation_ids _ _ _ _ c hc
    | true =>
      rw [screenOne_backend_error svc L job doc e hL hg herr] at hc
      exact screenFallback_citation_ids _ _ _ _ c hc
  · cases hg : (guardrailContext svc.min_relevance_score (svc.retrieve job (some doc))).1 with
    | false =>
      rw [screenOne_gate_failed svc L job doc hL hg] at hc
      exact screenFallback_citation_ids _ _ _ _ c hc
    | true =>
      rw [screenOne_backend_ok svc L job doc data hL hg hok] at hc
      rcases hcase with hinv | husable
      · have hni : ¬ validScreeningResult (parseScreening doc data
            (svc.retrieve job (some doc))) = true := by
          rw [hinv]
          exact Bool.false_ne_true
        rw [if_neg hni] at hc
        exact screenFallback_citation_ids _ _ _ _ c hc
      · by_cases hv : validScreeningResult (parseScreening doc data
            (svc.retrieve job (some doc)))
        · rw [if_pos hv] at hc
          exact parse_citation_ids_of_no_usable doc data _ husable c hc
        · rw [if_neg hv] at hc
          exact screenFallback_citation_ids _ _ _ _ c hc

/-- A service whose backend returns a syntactically valid screening JSON citing
a chunk id that was never retrieved. -/
def svcFakeCitation : RAGServiceModel :=
  { min_relevance_score := 0,
    retrieve := fun _ _ =>
      [{ doc_name := "d.txt", chunk_id := "d.txt:0000", text := "resume text", score := 1,
         page := none }],
    llm := some
      { complete_markdown := fun _ _ => Except.ok "",
        complete_json := fun _ _ => Except.ok
          { overall_fit := some "Strong", confidence := some 1, summary := some "s",
            strengths := some [], gaps := some [],
            citations := some [{ chunk_id := some "FAKE", quote := some "q" }] } } }

/-- C1 counterexample.  The screening call retrieves only `d.txt:0000`, yet the
returned result carries the backend-invented citation id `FAKE`: backend
citations are accepted without being cross-checked against the retrieved set,
so the claim as stated is false. -/
theorem screen_citations_fabricated_counterexample :
    ((screenResumes svcFakeCitation "job" ["d.txt"]).map
        (fun r => r.citations.map (fun c => c.chunk_id))) = [["FAKE"]] ∧
    ((svcFakeCitation.retrieve "job" (some "d.txt")).map (fun t => t.chunk_id))
      = ["d.txt:0000"] ∧
    ("FAKE" : String) ∉ ["d.txt:0000"] := by
  refine ⟨?_, rfl, by decide⟩
  decide

/-- A service whose backend would fabricate a citation, but whose retrieval
score fails the guardrail, used to witness the amended C1 statement on the
gate-failure path. -/
def svcGateFail : RAGServiceModel :=
  { min_relevance_score := 1,
    retrieve := fun _ _ =>
      [{ doc_name := "d.txt", chunk_id := "d.txt:0000", text := "resume text", score := 0,
         page := none }],
    llm := some
      { complete_markdown := fun _ _ => Except.ok "",
        complete_json := fun _ _ => Except.ok
          { overall_fit := some "Strong", confidence := some 1, summary := some "s",
            strengths := some [], gaps := some [],
            citations := some [{ chunk_id := some "FAKE", quote := some "q" }] } } }

/-- Witness for C1: although this backend's (uncalled) response carries a
usable fabricated citation, the guardrail fails, and the fallback result cites
the retrieved chunk `d.txt:0000`. -/
theorem screen_citations_from_retrieved_witness :
    (chunkCitation "d.txt"
      { doc_name := "d.txt", chunk_id := "d.txt:0000", text := "resume text", score := 0,
        page := none }).chunk_id
      ∈ (svcGateFail.retrieve "job" (some "d.txt")).map (fun t => t.chunk_id) :=
  screen_citations_from_retrieved svcGateFail "job" "d.txt"
    (Or.inr (Or.inl (by norm_num [guardrailContext, svcGateFail])))
    (chunkCitation "d.txt"
      { doc_name := "d.txt", chunk_id := "d.txt:0000", text := "resume text", score := 0,
        page := none })
    (by decide)

/-- The `screen_resumes` loop produces exactly one result per requested
document, each a function of that document alone. -/
theorem screenResumes_eq_map (svc : RAGServiceModel) (job : String) (docs : List String) :
    screenResumes svc job docs = docs.map (screenOne svc job) := by
  suffices h : ∀ acc : List ScreeningResult,
      docs.foldl (fun results d => results ++ [screenOne svc job d]) acc
        = acc ++ docs.map (screenOne svc job) by
    simpa [screenResumes] using h []
  induction docs with
  | nil => intro acc; simp
  | cons d ds ih => intro acc; simp [List.foldl_cons, ih]

/-- When the guardrail passes but the backend call raises, `answer_question`
returns the evidence-excerpt fallback text. -/
theorem answerQuestion_backend_error (svc : RAGServiceModel) (L : LLMClient)
    (q em : String) (h : svc.llm = some L)
    (hg : (guardrailContext svc.min_relevance_score (svc.retrieve q none)).1 = true)
    (hmd : L.complete_markdown ANSWER_SYSTEM
        ("QUESTION:\n" ++ q ++ "\n\nCONTEXT:\n" ++ contextOf (svc.retrieve q none))
      = Except.error em) :
    answerQuestion svc q
      = "LLM is currently unavailable (for example, due to rate limits or exhausted quota).\n\nHere are the most relevant excerpts from the resumes instead:\n\n"
          ++ bullets220 (svc.retrieve q none) := by
  unfold answerQuestion
  rw [h]
  simp [hg, hmd]

/-- When the backend call raises, `compare_resumes` returns the per-resume
evidence blocks instead. -/
theorem compareResumes_backend_error (svc : RAGServiceModel) (L : LLMClient)
    (job em : String) (docs : List String) (h : svc.llm = some L)
    (hmd : ∀ s u : String, L.complete_markdown s u = Except.error em) :
    compareResumes svc job docs
      = "LLM is currently unavailable (for example, due to rate limits or exhausted quota).\n\nHere is the raw evidence per resume instead:\n\n"
          ++ String.intercalate "\n\n" ((docs.map (compareBlock svc job)).take 6) := by
  unfold compareResumes
  rw [h]
  simp [hmd]

/-- C7.  Backend exceptions never propagate: with a raising backend,
`screen_resumes` still returns one result per document — a document whose call
raised gets the evidence-only fallback with the `"LLM error: ..."` reason while
every other document's result is its own `screenOne` value, unaffected — and
`answer_question` and `compare_resumes` return their evidence-only fallback
texts. -/
theorem backend_failure_falls_back (svc : RAGServiceModel) (L : LLMClient)
    (q job doc : String) (docs : List String) (em ej : String)
    (hllm : svc.llm = some L)
    (hjerr : L.complete_json SCREEN_SYSTEM
      (screenUser job doc (svc.retrieve job (some doc))) = Except.error ej)
    (hgdoc : (guardrailContext svc.min_relevance_score (svc.retrieve job (some doc))).1
      = true)
    (hmderr : ∀ s u : String, L.complete_markdown s u = Except.error em)
    (hgq : (guardrailContext svc.min_relevance_score (svc.retrieve q none)).1 = true) :
    screenResumes svc job docs = docs.map (screenOne svc job) ∧
    screenOne svc job doc
      = screenFallback doc job (svc.retrieve job (some doc)) ("LLM error: " ++ ej) ∧
    answerQuestion svc q
      = "LLM is currently unavailable (for example, due to rate limits or exhausted quota).\n\nHere are the most relevant excerpts from the resumes instead:\n\n"
          ++ bullets220 (svc.retrieve q none) ∧
    compareResumes svc job docs
      = "LLM is currently unavailable (for example, due to rate limits or exhausted quota).\n\nHere is the raw evidence per resume instead:\n\n"
          ++ String.intercalate "\n\n" ((docs.map (compareBlock svc job)).take 6) :=
  ⟨screenResumes_eq_map svc job docs,
   screenOne_backend_error svc L job doc ej hllm hgdoc hjerr,
   answerQuestion_backend_error svc L q em hllm hgq (hmderr _ _),
   compareResumes_backend_error svc L job em docs hllm hmderr⟩

/-- A service whose backend raises on every call. -/
def svcBackendDown : RAGServiceModel :=
  { min_relevance_score := 0,
    retrieve := fun _ _ =>
      [{ doc_name := "d.txt", chunk_id := "d.txt:0000", text := "resume text", score := 1,
         page := none }],
    llm := some
      { complete_markdown := fun _ _ => Except.error "APIError",
        complete_json := fun _ _ => Except.error "RateLimitError" } }

/-- Witness for C7: the raising backend routes the screening of `d.txt` to the
evidence-only fallback with the `"LLM error: ..."` reason. -/
theorem backend_failure_falls_back_witness :
    screenOne svcBackendDown "job" "d.txt"
      = screenFallback "d.txt" "job" (svcBackendDown.retrieve "job" (some "d.txt"))
          ("LLM error: " ++ "RateLimitError") :=
  (backend_failure_falls_back svcBackendDown
      { complete_markdown := fun _ _ => Except.error "APIError",
        complete_json := fun _ _ => Except.error "RateLimitError" }
      "q" "job" "d.txt" ["d.txt"] "APIError" "RateLimitError" rfl rfl
      (by norm_num [guardrailContext, svcBackendDown]) (fun s u => rfl)
      (by norm_num [guardrailContext, svcBackendDown])).2.1

/-- `Embedder.embed`: one vector per input text. -/
noncomputable def embed (dim : Nat) (texts : List String) : List (List ℝ) :=
  texts.map (embedOne dim)

/-- `addAt` preserves the vector length. -/
theorem length_addAt (v : List ℚ) (i : Nat) (w : ℚ) : (addAt v i w).length = v.length := by
  induction v generalizing i with
  | nil => rfl
  | cons x xs ih =>
    cases i with
    | zero => rfl
    | succ n => simp [addAt, ih]

/-- The token loop preserves the vector length. -/
theorem length_accumTokens (dim : Nat) (ts : List String) (v : List ℚ) :
    (accumTokens dim ts v).length = v.length := by
  induction ts generalizing v with
  | nil => rfl
  | cons t ts ih =>
    cases ts with
    | nil =>
      show (addAt v (hashToIdx dim t) 1).length = v.length
      rw [length_addAt]
    | cons t2 ts' =>
      show (accumTokens dim (t2 :: ts')
        (addAt (addAt v (hashToIdx dim t) 1) (hashToIdx dim (t ++ "_" ++ t2)) (1 / 2))).length
          = v.length
      rw [ih, length_addAt, length_addAt]

/-- `addAt` with a non-negative weight preserves non-negativity. -/
theorem addAt_nonneg (w : ℚ) (hw : 0 ≤ w) :
    ∀ (v : List ℚ) (i : Nat), (∀ x ∈ v, 0 ≤ x) → ∀ x ∈ addAt v i w, 0 ≤ x := by
  intro v
  induction v with
  | nil => intro i _ x hx; simp [addAt] at hx
  | cons y ys ih =>
    intro i hv x hx
    cases i with
    | zero =>
      rcases List.mem_cons.mp hx with rfl | hx'
      · exact add_nonneg (hv y (List.mem_cons_self y ys)) hw
      · exact hv x (List.mem_cons_of_mem y hx')
    | succ n =>
      rcases List.mem_cons.mp hx with rfl | hx'
      · exact hv x (List.mem_cons_self x ys)
      · exact ih n (fun z hz => hv z (List.mem_cons_of_mem y hz)) x hx'

/-- The token loop preserves non-negativity of all components. -/
theorem accumTokens_nonneg (dim : Nat) (ts : List String) (v : List ℚ)
    (hv : ∀ x ∈ v, 0 ≤ x) : ∀ x ∈ accumTokens dim ts v, 0 ≤ x := by
  induction ts generalizing v with
  | nil => simpa [accumTokens] using hv
  | cons t ts ih =>
    cases ts with
    | nil =>
      intro x hx
      have hx' : x ∈ addAt v (hashToIdx dim t) 1 := hx
      exact addAt_nonneg 1 (by norm_num) v _ hv x hx'
    | cons t2 ts' =>
      intro x hx
      have hx' : x ∈ accumTokens dim (t2 :: ts')
          (addAt (addAt v (hashToIdx dim t) 1) (hashToIdx dim (t ++ "_" ++ t2)) (1 / 2)) := hx
      refine ih _ ?_ x hx'
      exact addAt_nonneg (1 / 2) (by norm_num) _ _ (addAt_nonneg 1 (by norm_num) v _ hv)

/-- `addAt` with a non-negative weight never decreases a component. -/
theorem addAt_getD_le (w : ℚ) (hw : 0 ≤ w) :
    ∀ (v : List ℚ) (i j : Nat), v.getD j 0 ≤ (addAt v i w).getD j 0 := by
  intro v
  induction v with
  | nil => intro i j; simp [addAt]
  | cons y ys ih =>
    intro i j
    cases i with
    | zero =>
      cases j with
      | zero => simp [addAt]; linarith
      | succ m => simp [addAt]
    | succ n =>
      cases j with
      | zero => simp [addAt]
      | succ m => simpa [addAt] using ih n m

/-- The token loop never decreases a component. -/
theorem accumTokens_getD_le (dim : Nat) (ts : List String) (v : List ℚ) (j : Nat) :
    v.getD j 0 ≤ (accumTokens dim ts v).getD j 0 := by
  induction ts generalizing v with
  | nil => simp [accumTokens]
  | cons t ts ih =>
    cases ts with
    | nil =>
      show v.getD j 0 ≤ (addAt v (hashToIdx dim t) 1).getD j 0
      exact addAt_getD_le 1 (by norm_num) v _ j
    | cons t2 ts' =>
      show v.getD j 0 ≤ (accumTokens dim (t2 :: ts')
        (addAt (addAt v (hashToIdx dim t) 1) (hashToIdx dim (t ++ "_" ++ t2)) (1 / 2))).getD j 0
      refine le_trans ?_ (ih _)
      exact le_trans (addAt_getD_le 1 (by norm_num) v _ j)
        (addAt_getD_le (1 / 2) (by norm_num) _ _ j)

/-- `addAt` adds exactly `w` at an in-range index. -/
theorem addAt_getD_eq (w : ℚ) :
    ∀ (v : List ℚ) (i : Nat), i < v.length → (addAt v i w).getD i 0 = v.getD i 0 + w := by
  intro v
  induction v with
  | nil => intro i hi; simp at hi
  | cons y ys ih =>
    intro i hi
    cases i with
    | zero => simp [addAt]
    | succ n =>
      simp only [addAt, List.getD_cons_succ]
      exact ih n (Nat.lt_of_succ_lt_succ hi)

/-- After processing a non-empty token list from the zero vector, the first
token's bucket holds at least `1`. -/
theorem rawVec_first_bucket (dim : Nat) (hdim : 0 < dim) (t : String) (ts : List String) :
    1 ≤ (accumTokens dim (t :: ts) (List.replicate dim 0)).getD (hashToIdx dim t) 0 := by
  have hidx : hashToIdx dim t < dim := Nat.mod_lt _ hdim
  have hlen : hashToIdx dim t < (List.replicate dim (0 : ℚ)).length := by
    simpa using hidx
  have h1 : (addAt (List.replicate dim 0) (hashToIdx dim t) 1).getD (hashToIdx dim t) 0
      = 1 := by
    rw [addAt_getD_eq 1 _ _ hlen]
    simp
  cases ts with
  | nil =>
    show 1 ≤ (addAt (List.replicate dim 0) (hashToIdx dim t) 1).getD (hashToIdx dim t) 0
    rw [h1]
  | cons t2 ts' =>
    show 1 ≤ (accumTokens dim (t2 :: ts')
      (addAt (addAt (List.replicate dim 0) (hashToIdx dim t) 1)
        (hashToIdx dim (t ++ "_" ++ t2)) (1 / 2))).getD (hashToIdx dim t) 0
    refine le_trans ?_ (accumTokens_getD_le dim _ _ _)
    refine le_trans ?_ (addAt_getD_le (1 / 2) (by norm_num) _ _ _)
    rw [h1]

/-- A sum of squares is non-negative. -/
theorem sumSq_nonneg (v : List ℝ) : 0 ≤ sumSq v := by
  induction v with
  | nil => simp [sumSq]
  | cons x xs ih =>
    simp only [sumSq, List.map_cons, List.sum_cons] at ih ⊢
    have hx := mul_self_nonneg x
    linarith

/-- Each squared component bounds the sum of squares from below. -/
theorem sq_getD_le_sumSq (v : List ℝ) (i : Nat) :
    v.getD i 0 * v.getD i 0 ≤ sumSq v := by
  induction v generalizing i with
  | nil => simp [sumSq]
  | cons x xs ih =>
    cases i with
    | zero =>
      simp only [List.getD_cons_zero, sumSq, List.map_cons, List.sum_cons]
      have hs := sumSq_nonneg xs
      simp only [sumSq] at hs
      linarith
    | succ n =>
      simp only [List.getD_cons_succ, sumSq, List.map_cons, List.sum_cons]
      have h1 := ih n
      simp only [sumSq] at h1
      have hx := mul_self_nonneg x
      linarith

/-- Dividing every component by `d` divides the sum of squares by `d * d`. -/
theorem sumSq_map_div (v : List ℝ) (d : ℝ) :
    sumSq (v.map (fun x => x / d)) = sumSq v / (d * d) := by
  induction v with
  | nil => simp [sumSq]
  | cons x xs ih =>
    simp only [List.map_cons, sumSq, List.sum_cons] at ih ⊢
    rw [ih, div_mul_div_comm, add_div]

/-- `getD` commutes with the cast of the raw vector into `ℝ`. -/
theorem getD_map_ratCast (v : List ℚ) (i : Nat) :
    (v.map (fun x : ℚ => (x : ℝ))).getD i 0 = ((v.getD i 0 : ℚ) : ℝ) := by
  induction v generalizing i with
  | nil => simp
  | cons x xs ih =>
    cases i with
    | zero => simp
    | succ n => simpa using ih n

/-- Properties of the `or 1.0`-guarded L2 normalization: components stay
non-negative, and when the raw sum of squares is positive the normalized vector
has Euclidean norm exactly 1. -/
theorem normalize_div_props (v : List ℝ) (hv : ∀ x ∈ v, 0 ≤ x) :
    (∀ x ∈ v.map (fun x => x /
        (if Real.sqrt (sumSq v) = 0 then 1 else Real.sqrt (sumSq v))), 0 ≤ x) ∧
    (0 < sumSq v → Real.sqrt (sumSq (v.map (fun x => x /
        (if Real.sqrt (sumSq v) = 0 then 1 else Real.sqrt (sumSq v))))) = 1) := by
  have hs := sumSq_nonneg v
  by_cases h0 : Real.sqrt (sumSq v) = 0
  · constructor
    · intro x hx
      obtain ⟨y, hy, rfl⟩ := List.mem_map.mp hx
      rw [if_pos h0]
      exact div_nonneg (hv y hy) (by norm_num)
    · intro hpos
      exact absurd h0 (ne_of_gt (Real.sqrt_pos.mpr hpos))
  · have hpos' : 0 < Real.sqrt (sumSq v) :=
      lt_of_le_of_ne (Real.sqrt_nonneg _) (Ne.symm h0)
    constructor
    · intro x hx
      obtain ⟨y, hy, rfl⟩ := List.mem_map.mp hx
      rw [if_neg h0]
      exact div_nonneg (hv y hy) (le_of_lt hpos')
    · intro hpos
      rw [if_neg h0, sumSq_map_div, Real.mul_self_sqrt hs, div_self (ne_of_gt hpos),
        Real.sqrt_one]

/-- C8.  For a positive configured dimension, every embedded vector has length
exactly `dim` and all components non-negative; a text with no tokens embeds to
the all-zero vector (no division by zero), and a text with at least one token
embeds to a vector of Euclidean norm exactly 1. -/
theorem embed_normalized_spec (dim : Nat) (text : String) (hdim : 0 < dim) :
    (embedOne dim text).length = dim ∧
    (∀ x ∈ embedOne dim text, 0 ≤ x) ∧
    (pyTokens text = [] → embedOne dim text = List.replicate dim 0) ∧
    (pyTokens text ≠ [] → Real.sqrt (sumSq (embedOne dim text)) = 1) := by
  have hlenq : (rawVec dim text).length = dim := by
    unfold rawVec
    rw [length_accumTokens]
    simp
  have hnnq : ∀ x ∈ rawVec dim text, 0 ≤ x := by
    refine accumTokens_nonneg dim _ _ ?_
    intro x hx
    rw [List.eq_of_mem_replicate hx]
  have hnnr : ∀ x ∈ (rawVec dim text).map (fun x : ℚ => (x : ℝ)), 0 ≤ x := by
    intro x hx
    obtain ⟨y, hy, rfl⟩ := List.mem_map.mp hx
    exact_mod_cast hnnq y hy
  have hEmb : embedOne dim text
      = ((rawVec dim text).map (fun x : ℚ => (x : ℝ))).map (fun x => x /
          (if Real.sqrt (sumSq ((rawVec dim text).map (fun x : ℚ => (x : ℝ)))) = 0 then 1
           else Real.sqrt (sumSq ((rawVec dim text).map (fun x : ℚ => (x : ℝ)))))) := by
    unfold embedOne
    rfl
  have hprops := normalize_div_props ((rawVec dim text).map (fun x : ℚ => (x : ℝ))) hnnr
  refine ⟨?_, ?_, ?_, ?_⟩
  · rw [hEmb]
    simp [hlenq]
  · rw [hEmb]
    exact hprops.1
  · intro htok
    have hraw : rawVec dim text = List.replicate dim 0 := by
      unfold rawVec
      rw [htok]
      rfl
    rw [hEmb, hraw]
    rw [List.map_replicate, List.map_replicate]
    norm_num
  · intro htok
    obtain ⟨t, ts, hts⟩ := List.exists_cons_of_ne_nil htok
    have hbucket : 1 ≤ (rawVec dim text).getD (hashToIdx dim t) 0 := by
      unfold rawVec
      rw [hts]
      exact rawVec_first_bucket dim hdim t ts
    have hbr : (1 : ℝ) ≤ ((rawVec dim text).map (fun x : ℚ => (x : ℝ))).getD
        (hashToIdx dim t) 0 := by
      rw [getD_map_ratCast]
      exact_mod_cast hbucket
    have hsqpos : 0 < sumSq ((rawVec dim text).map (fun x : ℚ => (x : ℝ))) := by
      have h1 := sq_getD_le_sumSq ((rawVec dim text).map (fun x : ℚ => (x : ℝ)))
        (hashToIdx dim t)
      nlinarith
    rw [hEmb]
    exact hprops.2 hsqpos

/-- Witness for C8: the embedding of `"go"` in dimension 2 has unit norm. -/
theorem embed_normalized_spec_witness :
    Real.sqrt (sumSq (embedOne 2 "go")) = 1 :=
  (embed_normalized_spec 2 "go" (by decide)).2.2.2 (by decide)

/-- C9.  The embedding is a fixed function of the input text alone: the
token-to-bucket map `hashToIdx` is keyed by BLAKE2b — a fixed hash modelled
concretely above, with no per-process seed or other hidden state — so equal
texts yield identical vectors on every evaluation. -/
theorem embed_deterministic (dim : Nat) (t1 t2 : String) (h : t1 = t2) :
    embed dim [t1] = embed dim [t2] ∧ embedOne dim t1 = embedOne dim t2 := by
  subst h
  exact ⟨rfl, rfl⟩

/-- Witness for C9. -/
theorem embed_deterministic_witness :
    embed 384 ["go"] = embed 384 ["go"] ∧ embedOne 384 "go" = embedOne 384 "go" :=
  embed_deterministic 384 "go" "go" rfl
